import Mathlib

/-!
Shallow embedding of the two Flask services of the repository
`video-summarization-using-llm`:

* `src/processing/embed_sentences.py` — embedding, FAISS indexing and
  semantic search (`/embed`, `/index`, `/search`, `/clear`);
* `src/processing/whisper_transcribe.py` — audio transcription
  (`/transcribe`).

Modelling conventions:

* JSON scalar values used as identifiers (`id`, `video_id`) are modelled by
  `JVal` (null, integer or string), with Python truthiness as `JVal.truthy`.
* A missing JSON key is `Option.none`; floats are modelled by `ℚ`.
* The FAISS `IndexFlatL2` index is the list of stored vectors in insertion
  order; `index.ntotal` is its length; `index.search` is exact k-nearest
  neighbour under squared Euclidean distance (`faissSearch`), which never
  returns `-1` indices because the callers cap `k` at `ntotal`.
* The Python `metadata` dict (string positions → entries) is an ordered
  association list with `Nat` keys (`str` on `Nat` is injective);
  `setKey` is Python dict assignment (update in place, or append).
* On-disk persistence (`save_faiss_index`, the pair of files written by
  every mutation) is the `disk` field of `ServiceState`; `faiss.write_index`
  / `json.dump` round-trip losslessly, so the disk holds the pair itself.
* The sentence-transformer model is out of scope: request handlers take the
  encoding function `enc : String → List ℚ` as a parameter; likewise the
  Whisper model for `transcribe`.
* Python `round(x, n)` is `roundTo n`: scale by `10 ^ n`, round to an
  integer, scale back.  (Python rounds half to even, Mathlib's `round`
  half up; the development never evaluates it at an exact tie.)
-/

namespace VideoSum

/-- A JSON scalar as used for `id` / `video_id` values. -/
inductive JVal where
  | jnull
  | jint (n : Int)
  | jstr (s : String)
  deriving DecidableEq, Repr

/-- Python truthiness of a JSON scalar: `None`, `0` and `""` are falsy. -/
def JVal.truthy : JVal → Bool
  | .jnull => false
  | .jint n => decide (n ≠ 0)
  | .jstr s => decide (s ≠ "")

/-- Truthiness of an optional value (`None` when the key is absent). -/
def truthyOpt : Option JVal → Bool
  | none => false
  | some v => v.truthy

/-- An embedding vector (Python list of floats). -/
abbrev Vec := List ℚ

/-- One value of the `metadata` dict of `embed_sentences.py`
(lines 194–197): `{"transcript_id": ..., "video_id": ...}`. -/
structure MetaEntry where
  transcript_id : JVal
  video_id : Option JVal
  deriving DecidableEq, Repr

/-- The `metadata` dict: FAISS position → entry, in insertion order. -/
abbrev MetaMap := List (Nat × MetaEntry)

/-- Python dict assignment `m[k] = v`: replace the entry in place if the
key is present, otherwise append it. -/
def setKey : MetaMap → Nat → MetaEntry → MetaMap
  | [], k, v => [(k, v)]
  | p :: m, k, v => if p.1 = k then (k, v) :: m else p :: setKey m k v

/-- Python `metadata.get(str(idx))`. -/
def metaGet (m : MetaMap) (k : Nat) : Option MetaEntry :=
  (m.find? (fun p => p.1 == k)).map Prod.snd

/-- The mutable state of the embedding service: the FAISS index contents,
the `metadata` dict, and the persisted pair of files (absent before the
first mutation persists them). -/
structure ServiceState where
  vectors : List Vec
  metadata : MetaMap
  disk : Option (List Vec × MetaMap)
  deriving DecidableEq, Repr

/-! ### `/embed` (embed_sentences.py lines 92–148) -/

/-- Body of a `/embed` request: optional `segments` key, each segment an
`{id, text}` pair. -/
structure EmbedRequest where
  segments : Option (List (JVal × String))
  deriving DecidableEq, Repr

/-- Response of `/embed`: HTTP status and whichever of the `error` /
`embeddings` keys the handler emits. -/
structure EmbedResponse where
  status : Nat
  error : Option String
  embeddings : Option (List (JVal × Vec))
  deriving DecidableEq, Repr

/-- The `embed` handler.  `enc` is `model.encode` on a single text;
`model.encode(texts)` returns one vector per text, hence `texts.map enc`. -/
def embed (enc : String → Vec) (req : EmbedRequest) : EmbedResponse :=
  match req.segments with
  | none => ⟨400, some "segments is required", none⟩
  | some segments =>
    if segments.isEmpty then ⟨200, none, some []⟩
    else
      let texts := segments.map Prod.snd
      let ids := segments.map Prod.fst
      let embeddings := texts.map enc
      ⟨200, none, some (ids.zip embeddings)⟩

/-! ### `/index` (embed_sentences.py lines 151–214) -/

/-- Body of a `/index` request: optional `video_id`, optional `embeddings`
key, each record an `{id, embedding}` pair. -/
structure IndexRequest where
  video_id : Option JVal
  embeddings : Option (List (JVal × Vec))
  deriving DecidableEq, Repr

/-- Response of `/index`: HTTP status and whichever of `error`, `message`,
`total_vectors` the handler emits (the empty-batch branch, line 177, emits
`message` only). -/
structure IndexResponse where
  status : Nat
  error : Option String
  message : Option String
  total_vectors : Option Nat
  deriving DecidableEq, Repr

/-- The metadata-update loop of `index_embeddings` (lines 192–197):
`metadata[str(start_idx + i)] = {"transcript_id": e.id, "video_id": vid}`
for each record in order. -/
def addMeta (vid : Option JVal) : Nat → MetaMap → List (JVal × Vec) → MetaMap
  | _, m, [] => m
  | start, m, e :: es => addMeta vid (start + 1) (setKey m start ⟨e.1, vid⟩) es

/-- The `index_embeddings` handler. -/
def index_embeddings (st : ServiceState) (req : IndexRequest) :
    ServiceState × IndexResponse :=
  match req.embeddings with
  | none => (st, ⟨400, some "embeddings is required", none, none⟩)
  | some embeddings_data =>
    if embeddings_data.isEmpty then
      (st, ⟨200, none, some "No embeddings to index", none⟩)
    else
      let start_idx := st.vectors.length
      let vectors := st.vectors ++ embeddings_data.map Prod.snd
      let metadata := addMeta req.video_id start_idx st.metadata embeddings_data
      (⟨vectors, metadata, some (vectors, metadata)⟩,
       ⟨200, none,
        some ("Indexed " ++ toString embeddings_data.length ++ " vectors"),
        some vectors.length⟩)

/-! ### `/clear` (embed_sentences.py lines 302–315) -/

/-- Response of `/clear`. -/
structure ClearResponse where
  status : Nat
  error : Option String
  message : Option String
  deriving DecidableEq, Repr

/-- The `clear_index` handler: fresh empty index and metadata, persisted
immediately. -/
def clear_index (_st : ServiceState) : ServiceState × ClearResponse :=
  (⟨[], [], some ([], [])⟩, ⟨200, none, some "Index cleared"⟩)

/-! ### `/search` (embed_sentences.py lines 217–299) -/

/-- Body of a `/search` request. -/
structure SearchRequest where
  query : Option String
  video_id : Option JVal
  top_k : Option Nat
  deriving DecidableEq, Repr

/-- One element of the `results` list (lines 283–289). -/
structure SearchResult where
  transcript_id : JVal
  video_id : Option JVal
  similarity : ℚ
  deriving DecidableEq, Repr

/-- Response of `/search`. -/
structure SearchResponse where
  status : Nat
  error : Option String
  results : Option (List SearchResult)
  deriving DecidableEq, Repr

/-- Python `round(q, k)`. -/
def roundTo (k : Nat) (q : ℚ) : ℚ := (round (q * 10 ^ k) : ℤ) / 10 ^ k

/-- Squared Euclidean distance, the metric of `IndexFlatL2`. -/
def sqDist : List ℚ → List ℚ → ℚ
  | x :: xs, y :: ys => (x - y) ^ 2 + sqDist xs ys
  | _, _ => 0

/-- Insert a `(distance, index)` pair into a distance-sorted list, after
any pairs of equal distance (stable). -/
def insertByDist (p : ℚ × Nat) : List (ℚ × Nat) → List (ℚ × Nat)
  | [] => [p]
  | q :: qs => if p.1 < q.1 then p :: q :: qs else q :: insertByDist p qs

/-- Sort `(distance, index)` pairs by ascending distance (stable). -/
def sortByDist (l : List (ℚ × Nat)) : List (ℚ × Nat) :=
  l.foldr insertByDist []

/-- `index.search(query_vector, k)` of `IndexFlatL2`: the `k` stored
vectors nearest to the query under squared Euclidean distance, as
`(distance, position)` pairs in ascending distance order. -/
def faissSearch (vecs : List Vec) (q : Vec) (k : Nat) : List (ℚ × Nat) :=
  (sortByDist (vecs.enum.map (fun p => (sqDist q p.2, p.1)))).take k

/-- The search breadth (lines 259–261):
`min(top_k * 10, index.ntotal) if video_id else min(top_k, index.ntotal)` —
note the Python truthiness test on `video_id`. -/
def searchK (video_id : Option JVal) (top_k ntotal : Nat) : Nat :=
  if truthyOpt video_id = true then min (top_k * 10) ntotal
  else min top_k ntotal

/-- The result-processing loop of `search` (lines 266–292): skip positions
without metadata, post-filter by truthy `video_id`, report similarity
`round(1 / (1 + dist), 4)`, and break once `top_k` results are collected. -/
def processResults (top_k : Nat) (video_id : Option JVal) (meta : MetaMap) :
    List (ℚ × Nat) → List SearchResult → List SearchResult
  | [], results => results
  | (dist, idx) :: rest, results =>
    match metaGet meta idx with
    | none => processResults top_k video_id meta rest results
    | some m =>
      if truthyOpt video_id = true ∧ m.video_id ≠ video_id then
        processResults top_k video_id meta rest results
      else
        let results' :=
          results ++ [⟨m.transcript_id, m.video_id, roundTo 4 (1 / (1 + dist))⟩]
        if top_k ≤ results'.length then results'
        else processResults top_k video_id meta rest results'

/-- The `search` handler.  `enc` is `model.encode` on the query text. -/
def search (enc : String → Vec) (st : ServiceState) (req : SearchRequest) :
    SearchResponse :=
  match req.query with
  | none => ⟨400, some "query is required", none⟩
  | some query =>
    let top_k := req.top_k.getD 10
    if st.vectors.length = 0 then ⟨200, none, some []⟩
    else
      let query_vector := enc query
      let search_k := searchK req.video_id top_k st.vectors.length
      let raw := faissSearch st.vectors query_vector search_k
      ⟨200, none, some (processResults top_k req.video_id st.metadata raw [])⟩

/-! ### Reachable states of the embedding service -/

/-- States the embedding service can be in: the fresh empty state
(`get_faiss_index` with no persisted files, lines 53–56), and anything a
mutation or a restart-plus-load of the persisted pair (lines 45–52)
produces from a reachable state. -/
inductive Reachable : ServiceState → Prop where
  | init : Reachable ⟨[], [], none⟩
  | index (st : ServiceState) (req : IndexRequest) :
      Reachable st → Reachable (index_embeddings st req).1
  | clear (st : ServiceState) :
      Reachable st → Reachable (clear_index st).1
  | load (st : ServiceState) (v : List Vec) (m : MetaMap) :
      Reachable st → st.disk = some (v, m) → Reachable ⟨v, m, st.disk⟩

/-- The positions the metadata loop of `index_embeddings` would key for a
request served in state `st`: `start_idx + i` for each record `i`
(lines 192–194); nothing for an absent or empty batch. -/
def posAssigned (st : ServiceState) (req : IndexRequest) : List Nat :=
  match req.embeddings with
  | none => []
  | some embs => (List.range embs.length).map (fun i => st.vectors.length + i)

/-! ### `/transcribe` (whisper_transcribe.py lines 37–107) -/

/-- Body of a `/transcribe` request. -/
structure TranscribeRequest where
  audio_path : Option String
  language : Option String
  deriving DecidableEq, Repr

/-- One raw segment of the Whisper result dict. -/
structure WhisperSegment where
  start : ℚ
  end_ : ℚ
  text : String
  avg_logprob : Option ℚ
  deriving DecidableEq, Repr

/-- The Whisper result dict (the fields the handler reads). -/
structure WhisperResult where
  segments : List WhisperSegment
  language : Option String
  deriving DecidableEq, Repr

/-- One formatted segment of the response (lines 88–93). -/
structure OutSegment where
  start : ℚ
  end_ : ℚ
  text : String
  confidence : Option ℚ
  deriving DecidableEq, Repr

/-- Response of `/transcribe`. -/
structure TranscribeResponse where
  status : Nat
  error : Option String
  segments : Option (List OutSegment)
  language : Option String
  duration : Option ℚ
  deriving DecidableEq, Repr

/-- The `transcribe` handler.  `fs` is `os.path.exists`; `runModel` is
`whisper_model.transcribe` on the path and optional language hint. -/
def transcribe (fs : String → Bool)
    (runModel : String → Option String → WhisperResult)
    (req : TranscribeRequest) : TranscribeResponse :=
  match req.audio_path with
  | none => ⟨400, some "audio_path is required", none, none, none⟩
  | some audio_path =>
    if fs audio_path = false then
      ⟨404, some ("Audio file not found: " ++ audio_path), none, none, none⟩
    else
      let result := runModel audio_path req.language
      let segments := result.segments.map (fun seg =>
        (⟨roundTo 2 seg.start, roundTo 2 seg.end_, seg.text.trim,
          seg.avg_logprob.map (fun p => roundTo 3 (p * (-1)))⟩ : OutSegment))
      ⟨200, none, some segments, some (result.language.getD "unknown"),
       some (((segments.getLast?).map OutSegment.end_).getD 0)⟩

/-! ### Lemmas on the metadata dict -/

theorem metaGet_setKey_self (m : MetaMap) (k : Nat) (v : MetaEntry) :
    metaGet (setKey m k v) k = some v := by
  induction m with
  | nil => simp [setKey, metaGet]
  | cons p m ih =>
    by_cases h : p.1 = k
    · simp [setKey, h, metaGet]
    · simpa [setKey, h, metaGet, List.find?_cons] using ih

theorem metaGet_setKey_ne (m : MetaMap) (k k' : Nat) (v : MetaEntry)
    (h : k' ≠ k) : metaGet (setKey m k v) k' = metaGet m k' := by
  induction m with
  | nil => simp [setKey, metaGet, List.find?_cons, Ne.symm h]
  | cons p m ih =>
    by_cases hp : p.1 = k
    · have h1 : (k == k') = false := by simp [Ne.symm h]
      have h2 : (p.1 == k') = false := by simp [hp, Ne.symm h]
      simp [setKey, hp, metaGet, List.find?_cons, h1, h2]
    · have hif : setKey (p :: m) k v = p :: setKey m k v := by
        simp [setKey, hp]
      by_cases hp' : p.1 = k'
      · rw [hif]
        simp [metaGet, List.find?_cons, hp']
      · rw [hif]
        simpa [metaGet, List.find?_cons, hp'] using ih

theorem setKey_of_not_mem (m : MetaMap) (k : Nat) (v : MetaEntry)
    (h : k ∉ m.map Prod.fst) : setKey m k v = m ++ [(k, v)] := by
  induction m with
  | nil => simp [setKey]
  | cons p m ih =>
    simp only [List.map_cons, List.mem_cons, not_or] at h
    simp [setKey, Ne.symm h.1, ih h.2]

theorem addMeta_keys (vid : Option JVal) (es : List (JVal × Vec)) :
    ∀ (start : Nat) (m : MetaMap), m.map Prod.fst = List.range start →
      (addMeta vid start m es).map Prod.fst = List.range (start + es.length) := by
  induction es with
  | nil => intro start m h; simpa [addMeta] using h
  | cons e es ih =>
    intro start m h
    have hnm : start ∉ m.map Prod.fst := by
      rw [h]; exact fun hc => absurd (List.mem_range.mp hc) (lt_irrefl start)
    have hkeys : (setKey m start ⟨e.1, vid⟩).map Prod.fst = List.range (start + 1) := by
      rw [setKey_of_not_mem m start _ hnm, List.map_append, h, List.range_succ]
      rfl
    have := ih (start + 1) (setKey m start ⟨e.1, vid⟩) hkeys
    rw [addMeta, this]
    congr 1
    simp only [List.length_cons]
    omega

theorem metaGet_addMeta_lt (vid : Option JVal) (es : List (JVal × Vec)) :
    ∀ (start : Nat) (m : MetaMap) (k : Nat), k < start →
      metaGet (addMeta vid start m es) k = metaGet m k := by
  induction es with
  | nil => intro start m k _; rfl
  | cons e es ih =>
    intro start m k hk
    rw [addMeta, ih (start + 1) _ k (by omega),
      metaGet_setKey_ne _ _ _ _ (by omega)]

theorem metaGet_addMeta (vid : Option JVal) (es : List (JVal × Vec)) :
    ∀ (start : Nat) (m : MetaMap) (i : Nat) (h : i < es.length),
      metaGet (addMeta vid start m es) (start + i) =
        some ⟨(es.get ⟨i, h⟩).1, vid⟩ := by
  induction es with
  | nil => intro start m i h; exact absurd h (by simp)
  | cons e es ih =>
    intro start m i h
    match i with
    | 0 =>
      rw [Nat.add_zero, addMeta, metaGet_addMeta_lt vid es (start + 1) _ start (by omega),
        metaGet_setKey_self]
      rfl
    | j + 1 =>
      have : start + (j + 1) = (start + 1) + j := by omega
      rw [this, addMeta, ih (start + 1) _ j (by simpa using h)]
      rfl

/-! ### The state invariant of the embedding service -/

/-- The metadata dict keys are exactly the positions of the stored
vectors, in order. -/
def keysOK (v : List Vec) (m : MetaMap) : Prop :=
  m.map Prod.fst = List.range v.length

/-- The in-memory pair and (when present) the persisted pair are
well-keyed. -/
def stInv (st : ServiceState) : Prop :=
  keysOK st.vectors st.metadata ∧ ∀ p, st.disk = some p → keysOK p.1 p.2

theorem reachable_stInv {st : ServiceState} (h : Reachable st) : stInv st := by
  induction h with
  | init =>
    exact ⟨by simp [keysOK], fun p hp => by cases hp⟩
  | index st req hr ih =>
    rcases ih with ⟨ihm, ihd⟩
    cases hreq : req.embeddings with
    | none =>
      constructor
      · simpa [index_embeddings, hreq] using ihm
      · simpa [index_embeddings, hreq] using ihd
    | some embs =>
      by_cases he : embs.isEmpty
      · constructor
        · simpa [index_embeddings, hreq, he] using ihm
        · simpa [index_embeddings, hreq, he] using ihd
      · have hok : keysOK (st.vectors ++ embs.map Prod.snd)
            (addMeta req.video_id st.vectors.length st.metadata embs) := by
          unfold keysOK
          rw [addMeta_keys req.video_id embs st.vectors.length st.metadata ihm,
            List.length_append, List.length_map]
        constructor
        · simpa [index_embeddings, hreq, he] using hok
        · intro p hp
          simp only [index_embeddings, hreq, he, Bool.false_eq_true,
            if_false, Option.some.injEq] at hp
          rw [← hp]
          exact hok
  | clear st hr ih =>
    refine ⟨by simp [clear_index, keysOK], fun p hp => ?_⟩
    simp only [clear_index, Option.some.injEq] at hp
    rw [← hp]
    simp [keysOK]
  | load st v m hr hd ih =>
    exact ⟨ih.2 (v, m) hd, ih.2⟩

/-! ### Claim theorems -/

set_option maxRecDepth 3000

/-- C1: a `/index` request with a non-empty embeddings list of `n` records
appends the `n` vectors to the index in input order starting at the
previous vector count; for each appended vector at resulting position `p`
the metadata entry at key `p` holds that record's `id` as `transcript_id`
and the batch's `video_id` (absent when not supplied); the success
response reports `total_vectors` equal to the previous count plus `n`. -/
theorem C1_index_appends (st : ServiceState) (req : IndexRequest)
    (embs : List (JVal × Vec)) (hreq : req.embeddings = some embs)
    (hne : embs ≠ []) :
    (index_embeddings st req).1.vectors = st.vectors ++ embs.map Prod.snd ∧
    (∀ i (h : i < embs.length),
      metaGet (index_embeddings st req).1.metadata (st.vectors.length + i) =
        some ⟨(embs.get ⟨i, h⟩).1, req.video_id⟩) ∧
    (index_embeddings st req).2.status = 200 ∧
    (index_embeddings st req).2.total_vectors =
      some (st.vectors.length + embs.length) := by
  have he : embs.isEmpty = false := by
    cases embs with
    | nil => exact absurd rfl hne
    | cons a l => rfl
  have hstep : index_embeddings st req =
      (⟨st.vectors ++ embs.map Prod.snd,
        addMeta req.video_id st.vectors.length st.metadata embs,
        some (st.vectors ++ embs.map Prod.snd,
          addMeta req.video_id st.vectors.length st.metadata embs)⟩,
       ⟨200, none, some ("Indexed " ++ toString embs.length ++ " vectors"),
        some (st.vectors ++ embs.map Prod.snd).length⟩) := by
    simp [index_embeddings, hreq, he]
  rw [hstep]
  refine ⟨rfl, ?_, rfl, by simp⟩
  intro i h
  exact metaGet_addMeta req.video_id embs st.vectors.length st.metadata i h

/-- Witness for C1 at a concrete state holding one vector and a batch of
two records tagged with `video_id = 7`. -/
theorem C1_index_appends_witness :
    (index_embeddings ⟨[[1]], [(0, ⟨.jint 9, none⟩)], none⟩
        ⟨some (.jint 7), some [(.jint 1, [2]), (.jint 2, [3])]⟩).1.vectors =
      [[1], [2], [3]] ∧
    metaGet (index_embeddings ⟨[[1]], [(0, ⟨.jint 9, none⟩)], none⟩
        ⟨some (.jint 7), some [(.jint 1, [2]), (.jint 2, [3])]⟩).1.metadata 1 =
      some ⟨.jint 1, some (.jint 7)⟩ ∧
    metaGet (index_embeddings ⟨[[1]], [(0, ⟨.jint 9, none⟩)], none⟩
        ⟨some (.jint 7), some [(.jint 1, [2]), (.jint 2, [3])]⟩).1.metadata 2 =
      some ⟨.jint 2, some (.jint 7)⟩ ∧
    (index_embeddings ⟨[[1]], [(0, ⟨.jint 9, none⟩)], none⟩
        ⟨some (.jint 7), some [(.jint 1, [2]), (.jint 2, [3])]⟩).2.total_vectors =
      some 3 := by
  have h := C1_index_appends ⟨[[1]], [(0, ⟨.jint 9, none⟩)], none⟩
    ⟨some (.jint 7), some [(.jint 1, [2]), (.jint 2, [3])]⟩
    [(.jint 1, [2]), (.jint 2, [3])] rfl (by decide)
  exact ⟨h.1, h.2.1 0 (by decide), h.2.1 1 (by decide), h.2.2.2⟩

/-- C2: `/embed` on a valid non-empty segments list returns one embedding
per input segment in input order, carrying the caller-supplied `id`
unchanged, each vector of the model's fixed dimension 384. -/
theorem C2_embed_correct (enc : String → Vec)
    (hdim : ∀ s, (enc s).length = 384)
    (req : EmbedRequest) (segs : List (JVal × String))
    (hreq : req.segments = some segs) (hne : segs ≠ []) :
    (embed enc req).status = 200 ∧
    (embed enc req).embeddings = some (segs.map (fun p => (p.1, enc p.2))) ∧
    ((embed enc req).embeddings.getD []).length = segs.length ∧
    ((embed enc req).embeddings.getD []).map Prod.fst = segs.map Prod.fst ∧
    ∀ e ∈ (embed enc req).embeddings.getD [], e.2.length = 384 := by
  have he : segs.isEmpty = false := by
    cases segs with
    | nil => exact absurd rfl hne
    | cons a l => rfl
  have hzip : (segs.map Prod.fst).zip (segs.map (enc ∘ Prod.snd)) =
      segs.map (fun p => (p.1, enc p.2)) := by
    rw [List.zip_map']
    rfl
  have hstep : embed enc req =
      ⟨200, none, some (segs.map (fun p => (p.1, enc p.2)))⟩ := by
    simp [embed, hreq, he, hzip]
  rw [hstep]
  refine ⟨rfl, rfl, by simp, by simp, ?_⟩
  intro e hmem
  simp only [Option.getD_some, List.mem_map] at hmem
  obtain ⟨p, _, hp⟩ := hmem
  rw [← hp]
  exact hdim p.2

/-- Witness for C2: two segments under a constant 384-dimensional
encoder. -/
theorem C2_embed_correct_witness :
    (embed (fun _ => List.replicate 384 (0 : ℚ))
        ⟨some [(.jint 1, "a"), (.jint 2, "b")]⟩).embeddings =
      some [(.jint 1, List.replicate 384 (0 : ℚ)),
            (.jint 2, List.replicate 384 (0 : ℚ))] := by
  have h := C2_embed_correct (fun _ => List.replicate 384 (0 : ℚ))
    (fun _ => by rw [List.length_replicate]) ⟨some [(.jint 1, "a"), (.jint 2, "b")]⟩
    [(.jint 1, "a"), (.jint 2, "b")] rfl (by decide)
  exact h.2.1

/-- C6: a `/search` request with a present query against an empty index
returns an empty result list, and the response does not depend on the
encoding function (the model is never invoked). -/
theorem C6_search_empty_index (enc enc' : String → Vec) (st : ServiceState)
    (req : SearchRequest) (q : String) (hq : req.query = some q)
    (hempty : st.vectors = []) :
    (search enc st req).results = some [] ∧
    search enc st req = search enc' st req := by
  have hs : ∀ e : String → Vec, search e st req = ⟨200, none, some []⟩ := by
    intro e
    unfold search
    rw [hq, hempty]
    rfl
  rw [hs enc, hs enc']
  exact ⟨rfl, rfl⟩

/-- Witness for C6: empty index, two encoders that disagree everywhere. -/
theorem C6_search_empty_index_witness :
    (search (fun _ => [0]) ⟨[], [], none⟩ ⟨some "q", none, none⟩).results =
      some [] ∧
    search (fun _ => [0]) ⟨[], [], none⟩ ⟨some "q", none, none⟩ =
      search (fun _ => [1]) ⟨[], [], none⟩ ⟨some "q", none, none⟩ :=
  C6_search_empty_index (fun _ => [0]) (fun _ => [1]) ⟨[], [], none⟩
    ⟨some "q", none, none⟩ "q" rfl rfl

/-- C7 counterexample: `/index` with an empty embeddings list returns a
success response that contains no `total_vectors` field, so it does not
report the new total vector count. -/
theorem C7_counterexample :
    (index_embeddings ⟨[[1]], [(0, ⟨.jint 9, none⟩)], none⟩
        ⟨none, some []⟩).2.status = 200 ∧
    (index_embeddings ⟨[[1]], [(0, ⟨.jint 9, none⟩)], none⟩
        ⟨none, some []⟩).2.total_vectors = none ∧
    (index_embeddings ⟨[[1]], [(0, ⟨.jint 9, none⟩)], none⟩
        ⟨none, some []⟩).2.message = some "No embeddings to index" := by
  exact ⟨rfl, rfl, rfl⟩

/-- C7 amended: an empty embeddings list is a no-op (state, including the
persisted files, unchanged) returning a success message without a
`total_vectors` field; the request fails with HTTP 400 exactly when the
`embeddings` key is absent. -/
theorem C7_amended (st : ServiceState) (req : IndexRequest) :
    (req.embeddings = some [] →
      (index_embeddings st req).1 = st ∧
      (index_embeddings st req).2.status = 200 ∧
      (index_embeddings st req).2.message = some "No embeddings to index" ∧
      (index_embeddings st req).2.total_vectors = none) ∧
    ((index_embeddings st req).2.status = 400 ↔ req.embeddings = none) := by
  constructor
  · intro h
    refine ⟨?_, ?_, ?_, ?_⟩ <;> simp [index_embeddings, h]
  · cases hreq : req.embeddings with
    | none => simp [index_embeddings, hreq]
    | some embs =>
      by_cases he : embs.isEmpty <;> simp [index_embeddings, hreq, he]

/-- Witness for C7 amended: an empty batch on a one-vector state. -/
theorem C7_amended_witness :
    (index_embeddings ⟨[[1]], [(0, ⟨.jint 9, none⟩)], none⟩
        ⟨none, some []⟩).1 = ⟨[[1]], [(0, ⟨.jint 9, none⟩)], none⟩ ∧
    ((index_embeddings ⟨[[1]], [(0, ⟨.jint 9, none⟩)], none⟩
        ⟨none, some []⟩).2.status = 400 ↔
      (⟨none, some []⟩ : IndexRequest).embeddings = none) := by
  have h := C7_amended ⟨[[1]], [(0, ⟨.jint 9, none⟩)], none⟩ ⟨none, some []⟩
  exact ⟨(h.1 rfl).1, h.2⟩

/-- C8: `/transcribe` returns HTTP 400 with an error body when
`audio_path` is missing and HTTP 404 with an error body when the path
does not resolve to an existing file, in both cases independently of the
speech model. -/
theorem C8_transcribe_errors (fs : String → Bool)
    (run run' : String → Option String → WhisperResult)
    (req : TranscribeRequest) :
    (req.audio_path = none →
      (transcribe fs run req).status = 400 ∧
      (transcribe fs run req).error.isSome = true ∧
      transcribe fs run req = transcribe fs run' req) ∧
    (∀ p, req.audio_path = some p → fs p = false →
      (transcribe fs run req).status = 404 ∧
      (transcribe fs run req).error.isSome = true ∧
      transcribe fs run req = transcribe fs run' req) := by
  constructor
  · intro h
    refine ⟨?_, ?_, ?_⟩ <;> simp [transcribe, h]
  · intro p hp hfs
    refine ⟨?_, ?_, ?_⟩ <;> simp [transcribe, hp, hfs]

/-- Witness for C8: a missing `audio_path` and a nonexistent path, under
two speech models that disagree. -/
theorem C8_transcribe_errors_witness :
    (transcribe (fun _ => false) (fun _ _ => ⟨[], none⟩)
        ⟨none, none⟩).status = 400 ∧
    (transcribe (fun _ => false) (fun _ _ => ⟨[], none⟩)
        ⟨some "/a.wav", none⟩).status = 404 ∧
    transcribe (fun _ => false) (fun _ _ => ⟨[], none⟩) ⟨some "/a.wav", none⟩ =
      transcribe (fun _ => false) (fun _ _ => ⟨[], some "en"⟩)
        ⟨some "/a.wav", none⟩ := by
  have h1 := (C8_transcribe_errors (fun _ => false) (fun _ _ => ⟨[], none⟩)
    (fun _ _ => ⟨[], some "en"⟩) ⟨none, none⟩).1 rfl
  have h2 := (C8_transcribe_errors (fun _ => false) (fun _ _ => ⟨[], none⟩)
    (fun _ _ => ⟨[], some "en"⟩) ⟨some "/a.wav", none⟩).2 "/a.wav" rfl rfl
  exact ⟨h1.1, h2.1, h2.2.2⟩

/-- C9: after `/clear`, any `/search` request with a present query (any
query text, any `video_id`, any `top_k`) returns an empty result list. -/
theorem C9_clear_then_search (enc : String → Vec) (st : ServiceState)
    (req : SearchRequest) (q : String) (hq : req.query = some q) :
    (search enc (clear_index st).1 req).results = some [] := by
  simp [clear_index, search, hq]

/-- With a falsy `video_id` the post-filter condition of the result loop
is never taken, so the loop behaves as with no filter at all. -/
theorem processResults_falsy (top_k : Nat) (vid : Option JVal)
    (meta : MetaMap) (hf : truthyOpt vid = false) :
    ∀ (raw : List (ℚ × Nat)) (acc : List SearchResult),
      processResults top_k vid meta raw acc =
        processResults top_k none meta raw acc := by
  intro raw
  induction raw with
  | nil => intro acc; rfl
  | cons p rest ih =>
    intro acc
    obtain ⟨dist, idx⟩ := p
    cases hmg : metaGet meta idx with
    | none =>
      simp only [processResults, hmg]
      exact ih acc
    | some m =>
      have h1 : ¬(truthyOpt vid = true ∧ m.video_id ≠ vid) := by
        simp [hf]
      have h2 : ¬(truthyOpt (none : Option JVal) = true ∧
          m.video_id ≠ (none : Option JVal)) := by
        simp [truthyOpt]
      simp only [processResults, hmg, if_neg h1, if_neg h2]
      by_cases hlen : top_k ≤ (acc ++
          [(⟨m.transcript_id, m.video_id, roundTo 4 (1 / (1 + dist))⟩ :
            SearchResult)]).length
      · simp only [if_pos hlen]
      · simp only [if_neg hlen]
        exact ih _

/-- C10: a `/search` request whose `video_id` field holds a falsy value
(such as the integer 0 or the empty string) behaves exactly as the same
request with no `video_id` at all. -/
theorem C10_falsy_video_id (enc : String → Vec) (st : ServiceState)
    (req req' : SearchRequest) (v : JVal) (hv : req.video_id = some v)
    (hfalsy : v.truthy = false) (hq : req'.query = req.query)
    (hvid : req'.video_id = none) (hk : req'.top_k = req.top_k) :
    search enc st req = search enc st req' := by
  obtain ⟨qq, vv, kk⟩ := req
  obtain ⟨qq', vv', kk'⟩ := req'
  dsimp only at hv hq hvid hk
  subst hv hq hvid hk
  cases qq' with
  | none => rfl
  | some q =>
    unfold search
    dsimp only
    by_cases hlen : st.vectors.length = 0
    · rw [if_pos hlen, if_pos hlen]
    · rw [if_neg hlen, if_neg hlen]
      have hto : truthyOpt (some v) = false := hfalsy
      have h1 : searchK (some v) (kk'.getD 10) st.vectors.length =
          searchK none (kk'.getD 10) st.vectors.length := by
        simp [searchK, truthyOpt, hfalsy]
      rw [h1, processResults_falsy (kk'.getD 10) (some v) st.metadata hto]

/-- Witness for C10: `video_id = 0` on a one-vector state whose metadata
names a different video. -/
theorem C10_falsy_video_id_witness :
    search (fun _ => [1]) ⟨[[0]], [(0, ⟨.jint 1, some (.jint 5)⟩)], none⟩
        ⟨some "q", some (.jint 0), some 1⟩ =
      search (fun _ => [1]) ⟨[[0]], [(0, ⟨.jint 1, some (.jint 5)⟩)], none⟩
        ⟨some "q", none, some 1⟩ :=
  C10_falsy_video_id (fun _ => [1]) ⟨[[0]], [(0, ⟨.jint 1, some (.jint 5)⟩)], none⟩
    ⟨some "q", some (.jint 0), some 1⟩ ⟨some "q", none, some 1⟩
    (.jint 0) rfl rfl rfl rfl rfl

/-- Squared Euclidean distances are nonnegative. -/
theorem sqDist_nonneg : ∀ u v : List ℚ, 0 ≤ sqDist u v
  | x :: xs, y :: ys => add_nonneg (sq_nonneg (x - y)) (sqDist_nonneg xs ys)
  | [], _ => le_refl 0
  | _ :: _, [] => le_refl 0

theorem mem_insertByDist (x p : ℚ × Nat) :
    ∀ l : List (ℚ × Nat), x ∈ insertByDist p l → x = p ∨ x ∈ l := by
  intro l
  induction l with
  | nil =>
    intro hx
    simp only [insertByDist, List.mem_singleton] at hx
    exact Or.inl hx
  | cons q qs ih =>
    intro hx
    by_cases h : p.1 < q.1
    · simp only [insertByDist, if_pos h, List.mem_cons] at hx
      rcases hx with h1 | h1 | h1
      · exact Or.inl h1
      · exact Or.inr (by simp [h1])
      · exact Or.inr (by simp [h1])
    · simp only [insertByDist, if_neg h, List.mem_cons] at hx
      rcases hx with h1 | h1
      · exact Or.inr (by simp [h1])
      · rcases ih h1 with h2 | h2
        · exact Or.inl h2
        · exact Or.inr (by simp [h2])

theorem mem_sortByDist (x : ℚ × Nat) :
    ∀ l : List (ℚ × Nat), x ∈ sortByDist l → x ∈ l := by
  intro l
  induction l with
  | nil =>
    intro hx
    simpa [sortByDist] using hx
  | cons p ps ih =>
    intro hx
    have hx' : x ∈ insertByDist p (sortByDist ps) := hx
    rcases mem_insertByDist x p (sortByDist ps) hx' with h | h
    · rw [h]
      exact List.mem_cons_self p ps
    · exact List.mem_cons_of_mem p (ih h)

/-- Each `(distance, position)` pair the FAISS search returns carries the
squared Euclidean distance from the query to the stored vector at that
position. -/
theorem mem_faissSearch (vecs : List Vec) (q : Vec) (k : Nat)
    (p : ℚ × Nat) (hp : p ∈ faissSearch vecs q k) :
    ∃ hi : p.2 < vecs.length, p.1 = sqDist q (vecs.get ⟨p.2, hi⟩) := by
  have h1 : p ∈ sortByDist ((vecs.enum).map (fun e => (sqDist q e.2, e.1))) :=
    List.take_subset _ _ hp
  have h2 := mem_sortByDist p _ h1
  simp only [List.mem_map] at h2
  obtain ⟨e, hemem, he⟩ := h2
  obtain ⟨i, v⟩ := e
  have hget : vecs[i]? = some v := by
    rw [← List.mk_mem_enum_iff_getElem?]
    exact hemem
  rw [List.getElem?_eq_some_iff] at hget
  obtain ⟨hi, hv⟩ := hget
  rw [← he]
  exact ⟨hi, congrArg (sqDist q) hv.symm⟩

/-- Every result produced by the result loop either was already
accumulated or originates from one of the raw search pairs `p`: its
fields are the metadata entry at position `p.2` and the similarity
`round(1 / (1 + p.1), 4)` for that pair's own distance `p.1`. -/
theorem processResults_mem (top_k : Nat) (vid : Option JVal) (meta : MetaMap) :
    ∀ (raw : List (ℚ × Nat)) (acc : List SearchResult) (r : SearchResult),
      r ∈ processResults top_k vid meta raw acc →
      r ∈ acc ∨ ∃ p ∈ raw, ∃ m, metaGet meta p.2 = some m ∧
        r = ⟨m.transcript_id, m.video_id, roundTo 4 (1 / (1 + p.1))⟩ := by
  intro raw
  induction raw with
  | nil =>
    intro acc r hr
    exact Or.inl hr
  | cons p rest ih =>
    intro acc r hr
    obtain ⟨dist, idx⟩ := p
    cases hmg : metaGet meta idx with
    | none =>
      simp only [processResults, hmg] at hr
      rcases ih acc r hr with h | ⟨p', hp', m', hmg', hs⟩
      · exact Or.inl h
      · exact Or.inr ⟨p', List.mem_cons_of_mem _ hp', m', hmg', hs⟩
    | some m =>
      simp only [processResults, hmg] at hr
      by_cases hskip : truthyOpt vid = true ∧ m.video_id ≠ vid
      · rw [if_pos hskip] at hr
        rcases ih acc r hr with h | ⟨p', hp', m', hmg', hs⟩
        · exact Or.inl h
        · exact Or.inr ⟨p', List.mem_cons_of_mem _ hp', m', hmg', hs⟩
      · rw [if_neg hskip] at hr
        by_cases hlen : top_k ≤ (acc ++
            [(⟨m.transcript_id, m.video_id, roundTo 4 (1 / (1 + dist))⟩ :
              SearchResult)]).length
        · rw [if_pos hlen] at hr
          rcases List.mem_append.mp hr with h | h
          · exact Or.inl h
          · rw [List.mem_singleton] at h
            exact Or.inr ⟨(dist, idx), List.mem_cons_self _ _, m, hmg, h⟩
        · rw [if_neg hlen] at hr
          rcases ih _ r hr with h | ⟨p', hp', m', hmg', hs⟩
          · rcases List.mem_append.mp h with h' | h'
            · exact Or.inl h'
            · rw [List.mem_singleton] at h'
              exact Or.inr ⟨(dist, idx), List.mem_cons_self _ _, m, hmg, h'⟩
          · exact Or.inr ⟨p', List.mem_cons_of_mem _ hp', m', hmg', hs⟩

/-- `round` on ℚ is monotone. -/
theorem round_rat_mono {a b : ℚ} (h : a ≤ b) : round a ≤ round b := by
  rw [round_eq, round_eq]
  exact Int.floor_mono (by linarith)

/-- The rounded similarity of a nonnegative distance is nonnegative. -/
theorem similarity_nonneg (d : ℚ) (hd : 0 ≤ d) :
    0 ≤ roundTo 4 (1 / (1 + d)) := by
  unfold roundTo
  have h2 : (0 : ℤ) ≤ round (1 / (1 + d) * 10 ^ 4) := by
    have h3 : (0 : ℚ) ≤ 1 / (1 + d) * 10 ^ 4 := by positivity
    have h4 := round_rat_mono h3
    simpa using h4
  exact div_nonneg (by exact_mod_cast h2) (by norm_num)

/-- The rounded similarity of a nonnegative distance is at most 1. -/
theorem similarity_le_one (d : ℚ) (hd : 0 ≤ d) :
    roundTo 4 (1 / (1 + d)) ≤ 1 := by
  unfold roundTo
  have h0 : (0 : ℚ) < 1 + d := by linarith
  have h1 : 1 / (1 + d) ≤ 1 := by
    rw [div_le_one h0]
    linarith
  have h2 : 1 / (1 + d) * 10 ^ 4 ≤ ((10 ^ 4 : ℤ) : ℚ) := by
    calc 1 / (1 + d) * 10 ^ 4 ≤ 1 * 10 ^ 4 :=
          mul_le_mul_of_nonneg_right h1 (by norm_num)
      _ = ((10 ^ 4 : ℤ) : ℚ) := by norm_num
  have h3 : round (1 / (1 + d) * 10 ^ 4) ≤ (10 ^ 4 : ℤ) := by
    have := round_rat_mono h2
    rwa [round_intCast] at this
  rw [div_le_one (by norm_num)]
  calc ((round (1 / (1 + d) * 10 ^ 4) : ℤ) : ℚ) ≤ ((10 ^ 4 : ℤ) : ℚ) := by
        exact_mod_cast h3
    _ = 10 ^ 4 := by norm_num

/-- The rounded similarity is monotonically non-increasing in distance. -/
theorem similarity_antitone (d₁ d₂ : ℚ) (h1 : 0 ≤ d₁) (h12 : d₁ ≤ d₂) :
    roundTo 4 (1 / (1 + d₂)) ≤ roundTo 4 (1 / (1 + d₁)) := by
  unfold roundTo
  have ha : (0 : ℚ) < 1 + d₁ := by linarith
  have hd : 1 / (1 + d₂) ≤ 1 / (1 + d₁) :=
    one_div_le_one_div_of_le ha (by linarith)
  have hm : 1 / (1 + d₂) * 10 ^ 4 ≤ 1 / (1 + d₁) * 10 ^ 4 :=
    mul_le_mul_of_nonneg_right hd (by norm_num)
  have hr := round_rat_mono hm
  have hc : ((round (1 / (1 + d₂) * 10 ^ 4) : ℤ) : ℚ) ≤
      ((round (1 / (1 + d₁) * 10 ^ 4) : ℤ) : ℚ) := by exact_mod_cast hr
  exact (div_le_div_right (by norm_num)).mpr hc

/-- Evaluation rule for `roundTo`: if `z` is the integer nearest to
`q * 10 ^ k` (rounding half up), then `roundTo k q = z / 10 ^ k`. -/
theorem roundTo_eq_of (k : Nat) (q : ℚ) (z : ℤ)
    (h1 : (z : ℚ) ≤ q * 10 ^ k + 1 / 2) (h2 : q * 10 ^ k + 1 / 2 < z + 1) :
    roundTo k q = (z : ℚ) / 10 ^ k := by
  unfold roundTo
  rw [round_eq, Int.floor_eq_iff.mpr ⟨h1, h2⟩]

/-- A `/search` against a one-vector index with no filter and `top_k = 1`
reduces to the single result with symbolic similarity: none of the loop's
tests inspect the rational distance value. -/
theorem search_single (u v : Vec) (e : MetaEntry) (q : String) :
    search (fun _ => u) ⟨[v], [(0, e)], none⟩ ⟨some q, none, some 1⟩ =
      ⟨200, none, some [⟨e.transcript_id, e.video_id,
        roundTo 4 (1 / (1 + sqDist u v))⟩]⟩ := rfl

/-- C3 counterexample: at squared distance `1/16` the reported similarity
is `round(16/17, 4) = 2353/2500`, which differs from `1/(1+d) = 16/17`;
and at squared distance `317² = 100489` the reported similarity is
exactly `0`, outside the claimed interval `(0, 1]`. -/
theorem C3_counterexample :
    (search (fun _ => [1/4]) ⟨[[0]], [(0, ⟨.jint 1, none⟩)], none⟩
        ⟨some "q", none, some 1⟩).results =
      some [⟨.jint 1, none, 2353/2500⟩] ∧
    sqDist [1/4] [0] = 1/16 ∧
    (2353/2500 : ℚ) ≠ 1 / (1 + 1/16) ∧
    (search (fun _ => [317]) ⟨[[0]], [(0, ⟨.jint 1, none⟩)], none⟩
        ⟨some "q", none, some 1⟩).results =
      some [⟨.jint 1, none, 0⟩] ∧
    ¬(0 : ℚ) < 0 := by
  have hsq1 : sqDist [1/4] [0] = 1/16 := by
    with_unfolding_all decide
  have hsq2 : sqDist [317] [0] = 100489 := by
    show (317 - 0 : ℚ) ^ 2 + sqDist [] [] = 100489
    norm_num [sqDist]
  have e1 : roundTo 4 (1 / (1 + sqDist [1/4] [0])) = 2353/2500 := by
    rw [hsq1, roundTo_eq_of 4 (1 / (1 + 1/16)) 9412 (by norm_num) (by norm_num)]
    norm_num
  have e2 : roundTo 4 (1 / (1 + sqDist [317] [0])) = 0 := by
    rw [hsq2, roundTo_eq_of 4 (1 / (1 + 100489)) 0 (by norm_num) (by norm_num)]
    norm_num
  refine ⟨?_, ?_, ?_, ?_, ?_⟩
  · rw [search_single [1/4] [0] ⟨.jint 1, none⟩ "q"]
    dsimp only
    rw [e1]
  · exact hsq1
  · norm_num
  · rw [search_single [317] [0] ⟨.jint 1, none⟩ "q"]
    dsimp only
    rw [e2]
  · exact lt_irrefl 0

/-- C3 amended: every reported result comes from an index position `i`
whose metadata entry supplies its identifiers, and its similarity equals
`1/(1+d)` rounded to 4 decimal places for that result's own squared
Euclidean distance `d` — the distance from the query embedding to the
stored vector at position `i`; every reported similarity lies in
`[0, 1]`; for any two results, the one with the larger distance has a
similarity no larger; and distance exactly 0 yields similarity
exactly 1. -/
theorem C3_amended :
    (∀ (enc : String → Vec) (st : ServiceState) (req : SearchRequest)
        (q : String) (rs : List SearchResult) (r : SearchResult),
        req.query = some q →
        (search enc st req).results = some rs → r ∈ rs →
        ∃ (i : Nat) (hi : i < st.vectors.length) (m : MetaEntry),
          metaGet st.metadata i = some m ∧
          r = ⟨m.transcript_id, m.video_id,
                roundTo 4 (1 / (1 + sqDist (enc q) (st.vectors.get ⟨i, hi⟩)))⟩ ∧
          0 ≤ r.similarity ∧ r.similarity ≤ 1) ∧
    (∀ (r₁ r₂ : SearchResult) (d₁ d₂ : ℚ), 0 ≤ d₁ → d₁ ≤ d₂ →
        r₁.similarity = roundTo 4 (1 / (1 + d₁)) →
        r₂.similarity = roundTo 4 (1 / (1 + d₂)) →
        r₂.similarity ≤ r₁.similarity) ∧
    roundTo 4 (1 / (1 + 0) : ℚ) = 1 := by
  have hone : roundTo 4 (1 / (1 + 0) : ℚ) = 1 := by
    rw [roundTo_eq_of 4 (1 / (1 + 0)) 10000 (by norm_num) (by norm_num)]
    norm_num
  refine ⟨?_, ?_, hone⟩
  · intro enc st req q rs r hq hres hmem
    unfold search at hres
    rw [hq] at hres
    dsimp only at hres
    by_cases hlen : st.vectors.length = 0
    · rw [if_pos hlen] at hres
      simp only [Option.some.injEq] at hres
      rw [← hres] at hmem
      cases hmem
    · rw [if_neg hlen] at hres
      simp only [Option.some.injEq] at hres
      rw [← hres] at hmem
      rcases processResults_mem _ _ _ _ _ _ hmem with h | ⟨p, hp, m, hmg, hr⟩
      · cases h
      · obtain ⟨hi, hdist⟩ := mem_faissSearch st.vectors (enc q) _ p hp
        have hd0 : 0 ≤ p.1 := by
          rw [hdist]
          exact sqDist_nonneg (enc q) _
        refine ⟨p.2, hi, m, hmg, ?_, ?_, ?_⟩
        · rw [hr, hdist]
        · rw [hr]
          exact similarity_nonneg p.1 hd0
        · rw [hr]
          exact similarity_le_one p.1 hd0
  · intro r₁ r₂ d₁ d₂ h1 h12 hs1 hs2
    rw [hs1, hs2]
    exact similarity_antitone d₁ d₂ h1 h12

/-- Witness for C3 amended: the per-result characterisation applied to
the concrete one-vector search with distance `0`, and the per-result
monotonicity applied to two concrete results with distances `0 ≤ 4`. -/
theorem C3_amended_witness :
    (∃ (i : Nat)
        (hi : i < (⟨[[0]], [(0, ⟨.jint 1, none⟩)], none⟩ :
          ServiceState).vectors.length)
        (m : MetaEntry),
      metaGet (⟨[[0]], [(0, ⟨.jint 1, none⟩)], none⟩ :
          ServiceState).metadata i = some m ∧
      (⟨.jint 1, none, 1⟩ : SearchResult) =
        ⟨m.transcript_id, m.video_id,
          roundTo 4 (1 / (1 + sqDist ((fun _ => ([0] : Vec)) "q")
            ((⟨[[0]], [(0, ⟨.jint 1, none⟩)], none⟩ :
              ServiceState).vectors.get ⟨i, hi⟩)))⟩ ∧
      (0 : ℚ) ≤ (⟨.jint 1, none, 1⟩ : SearchResult).similarity ∧
      (⟨.jint 1, none, 1⟩ : SearchResult).similarity ≤ 1) ∧
    (⟨.jint 2, none, roundTo 4 (1 / (1 + 4))⟩ : SearchResult).similarity ≤
      (⟨.jint 1, none, 1⟩ : SearchResult).similarity := by
  constructor
  · refine C3_amended.1 (fun _ => [0]) ⟨[[0]], [(0, ⟨.jint 1, none⟩)], none⟩
      ⟨some "q", none, some 1⟩ "q" [⟨.jint 1, none, 1⟩]
      ⟨.jint 1, none, 1⟩ rfl ?_ (List.mem_singleton.mpr rfl)
    rw [search_single [0] [0] ⟨.jint 1, none⟩ "q"]
    dsimp only
    have hsq0 : sqDist [0] [0] = 0 := by with_unfolding_all decide
    rw [show roundTo 4 (1 / (1 + sqDist [0] [0])) = 1 by
      rw [hsq0, roundTo_eq_of 4 (1 / (1 + 0)) 10000 (by norm_num) (by norm_num)]
      norm_num]
  · refine C3_amended.2.1 ⟨.jint 1, none, 1⟩
      ⟨.jint 2, none, roundTo 4 (1 / (1 + 4))⟩ 0 4 le_rfl (by norm_num) ?_ rfl
    dsimp only
    rw [roundTo_eq_of 4 (1 / (1 + 0)) 10000 (by norm_num) (by norm_num)]
    norm_num

/-- The result loop never grows past `top_k` once fewer than `top_k`
results are accumulated: it breaks as soon as `top_k` is reached. -/
theorem processResults_length_le (top_k : Nat) (vid : Option JVal)
    (meta : MetaMap) :
    ∀ (raw : List (ℚ × Nat)) (acc : List SearchResult),
      acc.length < top_k →
      (processResults top_k vid meta raw acc).length ≤ top_k := by
  intro raw
  induction raw with
  | nil =>
    intro acc h
    exact Nat.le_of_lt h
  | cons p rest ih =>
    intro acc h
    obtain ⟨dist, idx⟩ := p
    cases hmg : metaGet meta idx with
    | none =>
      simp only [processResults, hmg]
      exact ih acc h
    | some m =>
      simp only [processResults, hmg]
      by_cases hskip : truthyOpt vid = true ∧ m.video_id ≠ vid
      · rw [if_pos hskip]
        exact ih acc h
      · rw [if_neg hskip]
        by_cases hlen : top_k ≤ (acc ++
            [(⟨m.transcript_id, m.video_id, roundTo 4 (1 / (1 + dist))⟩ :
              SearchResult)]).length
        · rw [if_pos hlen]
          simp only [List.length_append, List.length_singleton]
          omega
        · rw [if_neg hlen]
          refine ih _ ?_
          simp only [List.length_append, List.length_singleton] at hlen ⊢
          omega

/-- C4 counterexample: with `top_k = 3` and a 50-vector index, a request
in which the `video_id` field is present but holds the falsy value `0`
gets search breadth `min(top_k, ntotal) = 3`, not the
`min(top_k * 10, ntotal) = 30` the claim asserts for every present
filter. -/
theorem C4_counterexample :
    searchK (some (.jint 0)) 3 50 = 3 ∧
    min (3 * 10) 50 = 30 ∧ (3 : Nat) ≠ 30 := by
  decide

/-- C4 amended: the search breadth is `min(top_k * 10, ntotal)` when a
truthy `video_id` filter is supplied and `min(top_k, ntotal)` otherwise
(in particular for an absent or falsy `video_id`); after post-hoc
filtering the result list is truncated to at most `top_k` entries; and
fewer than `top_k` results can be returned when fewer survive the
filter. -/
theorem C4_amended :
    (∀ (vid : Option JVal) (top_k n : Nat), truthyOpt vid = true →
        searchK vid top_k n = min (top_k * 10) n) ∧
    (∀ (vid : Option JVal) (top_k n : Nat), truthyOpt vid = false →
        searchK vid top_k n = min top_k n) ∧
    (∀ (enc : String → Vec) (st : ServiceState) (req : SearchRequest)
        (k : Nat) (rs : List SearchResult), req.top_k = some k → 0 < k →
        (search enc st req).results = some rs → rs.length ≤ k) ∧
    (∃ (enc : String → Vec) (st : ServiceState) (req : SearchRequest)
        (rs : List SearchResult) (k : Nat),
        req.top_k = some k ∧ truthyOpt req.video_id = true ∧
        k ≤ st.vectors.length ∧
        (search enc st req).results = some rs ∧ rs.length < k) := by
  refine ⟨?_, ?_, ?_, ?_⟩
  · intro vid top_k n h
    simp [searchK, h]
  · intro vid top_k n h
    simp [searchK, h]
  · intro enc st req k rs hk hkpos hres
    unfold search at hres
    cases hq : req.query with
    | none =>
      rw [hq] at hres
      cases hres
    | some q =>
      rw [hq] at hres
      dsimp only at hres
      by_cases hlen : st.vectors.length = 0
      · rw [if_pos hlen] at hres
        simp only [Option.some.injEq] at hres
        rw [← hres]
        exact Nat.le_of_lt hkpos
      · rw [if_neg hlen] at hres
        simp only [Option.some.injEq] at hres
        rw [← hres, hk]
        exact processResults_length_le k req.video_id st.metadata _ []
          (by simpa using hkpos)
  · refine ⟨fun _ => [0], ⟨[[0]], [(0, ⟨.jint 1, some (.jint 5)⟩)], none⟩,
      ⟨some "q", some (.jint 7), some 1⟩, [], 1, rfl, rfl, ?_, ?_, ?_⟩
    · decide
    · with_unfolding_all decide
    · decide

/-- Witness for C4 amended: a truthy filter widens the breadth, an absent
one does not, and a one-result search respects `top_k = 1`. -/
theorem C4_amended_witness :
    searchK (some (.jint 7)) 2 5 = min (2 * 10) 5 ∧
    searchK none 2 5 = min 2 5 ∧
    ([⟨.jint 1, none, 1⟩] : List SearchResult).length ≤ 1 := by
  refine ⟨C4_amended.1 (some (.jint 7)) 2 5 rfl,
    C4_amended.2.1 none 2 5 rfl,
    C4_amended.2.2.1 (fun _ => [0]) ⟨[[0]], [(0, ⟨.jint 1, none⟩)], none⟩
      ⟨some "q", none, some 1⟩ 1 [⟨.jint 1, none, 1⟩] rfl (by decide)
      (by with_unfolding_all decide)⟩

/-- Witness for C9: clearing a one-vector state, then searching with a
filter and an explicit `top_k`. -/
theorem C9_clear_then_search_witness :
    (search (fun _ => [0]) (clear_index ⟨[[1]], [(0, ⟨.jint 9, none⟩)], none⟩).1
        ⟨some "anything", some (.jint 3), some 5⟩).results = some [] :=
  C9_clear_then_search (fun _ => [0]) ⟨[[1]], [(0, ⟨.jint 9, none⟩)], none⟩
    ⟨some "anything", some (.jint 3), some 5⟩ "anything" rfl

/-- C5 counterexample: positions are reused across a `/clear`.  Starting
from the initial state, indexing one record keys metadata position 0 for
transcript 1; after `/clear`, indexing another record keys position 0
again, now for transcript 2 — all along reachable states.  So positions
are not "never reused". -/
theorem C5_counterexample :
    Reachable ((index_embeddings
      ((clear_index ((index_embeddings ⟨[], [], none⟩
          ⟨none, some [(.jint 1, [0])]⟩).1)).1)
      ⟨none, some [(.jint 2, [1])]⟩).1) ∧
    posAssigned ⟨[], [], none⟩ ⟨none, some [(.jint 1, [0])]⟩ = [0] ∧
    posAssigned ((clear_index ((index_embeddings ⟨[], [], none⟩
        ⟨none, some [(.jint 1, [0])]⟩).1)).1)
      ⟨none, some [(.jint 2, [1])]⟩ = [0] ∧
    metaGet ((index_embeddings ⟨[], [], none⟩
        ⟨none, some [(.jint 1, [0])]⟩).1).metadata 0 =
      some ⟨.jint 1, none⟩ ∧
    metaGet ((index_embeddings
      ((clear_index ((index_embeddings ⟨[], [], none⟩
          ⟨none, some [(.jint 1, [0])]⟩).1)).1)
      ⟨none, some [(.jint 2, [1])]⟩).1).metadata 0 =
      some ⟨.jint 2, none⟩ := by
  refine ⟨?_, ?_, ?_, ?_, ?_⟩
  · exact Reachable.index _ _ (Reachable.clear _
      (Reachable.index _ _ Reachable.init))
  · decide
  · decide
  · decide
  · decide

/-- C5 amended: in every reachable state of the embedding service
(initial creation, loading the persisted pair, indexing, clearing) the
number of metadata entries equals the number of vectors in the index;
and, in the absence of `/clear`, positions are append-only: the positions
an indexing batch assigns are strictly increasing and strictly larger
than every position already keyed, hence never reused.  (`/clear` resets
the index, after which positions restart from 0 and are reused.) -/
theorem C5_amended :
    (∀ st : ServiceState, Reachable st →
        st.metadata.length = st.vectors.length) ∧
    (∀ (st : ServiceState) (req : IndexRequest),
        keysOK st.vectors st.metadata →
        List.Pairwise (· < ·) (posAssigned st req) ∧
        ∀ p ∈ posAssigned st req, ∀ k ∈ st.metadata.map Prod.fst, k < p) := by
  constructor
  · intro st hr
    have h := (reachable_stInv hr).1
    have h2 := congrArg List.length h
    simpa using h2
  · intro st req hok
    constructor
    · unfold posAssigned
      cases req.embeddings with
      | none => exact List.Pairwise.nil
      | some embs =>
        exact List.Pairwise.map _ (fun a b hab => by omega)
          (List.pairwise_lt_range embs.length)
    · intro p hp k hk
      unfold posAssigned at hp
      cases hreq : req.embeddings with
      | none =>
        rw [hreq] at hp
        cases hp
      | some embs =>
        rw [hreq] at hp
        simp only [List.mem_map, List.mem_range] at hp
        obtain ⟨i, _, hip⟩ := hp
        unfold keysOK at hok
        rw [hok] at hk
        rw [List.mem_range] at hk
        omega

/-- Witness for C5 amended: the count invariant at the initial state, and
append-only positions for a two-record batch on a one-vector state. -/
theorem C5_amended_witness :
    (⟨[], [], none⟩ : ServiceState).metadata.length =
      (⟨[], [], none⟩ : ServiceState).vectors.length ∧
    List.Pairwise (· < ·)
      (posAssigned ⟨[[0]], [(0, ⟨.jint 1, none⟩)], none⟩
        ⟨none, some [(.jint 2, [1]), (.jint 3, [2])]⟩) := by
  refine ⟨C5_amended.1 _ Reachable.init, ?_⟩
  refine (C5_amended.2 ⟨[[0]], [(0, ⟨.jint 1, none⟩)], none⟩
    ⟨none, some [(.jint 2, [1]), (.jint 3, [2])]⟩ ?_).1
  unfold keysOK
  decide

end VideoSum
